import Mathlib

/-
Verification of the rvis audio visualiser core: the windowed spectral
analyzer (src/pipeline.rs, appsink new_sample callback), the bin
normalization, the playback controller key handlers (src/main.rs), the
non-blocking render-tick receive, and the startup visualisation mode.

The analyzer is embedded generically over the scalar type of the FFT
buffer and the bin type of emitted frames, so that control-flow facts
(cursor position, frame count, panic freedom) are proved once for every
instantiation; the real-valued instantiation fixes the scalars to ℂ and
the bins to ℝ with the source's normalization formula.
-/

namespace Rvis

/-- FFT window size, `pub static FFT_SIZE: usize = 800` in pipeline.rs. -/
def FFT_SIZE : Nat := 800

/-- State captured by the appsink callback closure in `Pipeline::new`:
the FFT scratch buffer, the write cursor `pos`, and (as explicit history)
the list of frames pushed into the mpsc channel, oldest first. -/
structure AnalyzerState (α β : Type) where
  fftBuffer : List α
  pos : Nat
  sent : List (List β)

/-- Frame construction from an FFT output buffer:
`fft_buffer.iter().skip(FFT_SIZE / 2).map(|v| ...).collect()`. -/
def mkFrame {α β : Type} (toBin : α → β) (out : List α) : List β :=
  (out.drop (FFT_SIZE / 2)).map toBin

/-- One iteration of `for sample in samples` in the new_sample callback:
if `pos >= FFT_SIZE`, run the FFT over the current buffer, reset `pos`
to 0 and send the frame built from the second half of the output; then
write the incoming sample at `pos` and increment `pos`. -/
def ingest {α β : Type} (fft : List α → List α) (toBin : α → β)
    (ofSample : ℤ → α) (st : AnalyzerState α β) (sample : ℤ) :
    AnalyzerState α β :=
  let st1 : AnalyzerState α β :=
    if FFT_SIZE ≤ st.pos then
      { fftBuffer := fft st.fftBuffer, pos := 0,
        sent := st.sent ++ [mkFrame toBin (fft st.fftBuffer)] }
    else st
  { fftBuffer := st1.fftBuffer.set st1.pos (ofSample sample),
    pos := st1.pos + 1, sent := st1.sent }

/-- Initial closure state: an FFT_SIZE buffer of zero values and
`pos = 0`, nothing sent yet. -/
def initState {α β : Type} (zero : α) : AnalyzerState α β :=
  { fftBuffer := List.replicate FFT_SIZE zero, pos := 0, sent := [] }

/-- Feed a whole sample sequence, one sample at a time, through `ingest`
starting from the initial state. -/
def runAnalyzer {α β : Type} (fft : List α → List α) (toBin : α → β)
    (ofSample : ℤ → α) (zero : α) (samples : List ℤ) : AnalyzerState α β :=
  samples.foldl (ingest fft toBin ofSample) (initState zero)

/-- Closed form of the write cursor after `n` ingested samples. -/
def posAfter (n : Nat) : Nat :=
  if n = 0 then 0 else (n - 1) % FFT_SIZE + 1

/-- Closed form of the number of frames sent after `n` ingested samples. -/
def framesAfter (n : Nat) : Nat :=
  (n - 1) / FFT_SIZE

theorem ingest_pos {α β : Type} (fft : List α → List α) (toBin : α → β)
    (ofSample : ℤ → α) (st : AnalyzerState α β) (x : ℤ) :
    (ingest fft toBin ofSample st x).pos =
      if FFT_SIZE ≤ st.pos then 1 else st.pos + 1 := by
  unfold ingest
  split <;> rfl

theorem ingest_sent_length {α β : Type} (fft : List α → List α) (toBin : α → β)
    (ofSample : ℤ → α) (st : AnalyzerState α β) (x : ℤ) :
    (ingest fft toBin ofSample st x).sent.length =
      if FFT_SIZE ≤ st.pos then st.sent.length + 1 else st.sent.length := by
  unfold ingest
  split <;> simp

theorem ingest_pos_sent {α β : Type} (fft : List α → List α) (toBin : α → β)
    (ofSample : ℤ → α) (st : AnalyzerState α β) (x : ℤ) (n : Nat)
    (hp : st.pos = posAfter n) (hs : st.sent.length = framesAfter n) :
    (ingest fft toBin ofSample st x).pos = posAfter (n + 1) ∧
    (ingest fft toBin ofSample st x).sent.length = framesAfter (n + 1) := by
  rw [ingest_pos, ingest_sent_length, hp, hs]
  unfold posAfter framesAfter FFT_SIZE
  rcases n with _ | m
  · norm_num
  · simp only [Nat.succ_ne_zero, if_false, Nat.add_sub_cancel]
    constructor <;> split <;> omega

theorem foldl_ingest_pos_sent {α β : Type} (fft : List α → List α)
    (toBin : α → β) (ofSample : ℤ → α) (samples : List ℤ) :
    ∀ (st : AnalyzerState α β) (n : Nat),
      st.pos = posAfter n → st.sent.length = framesAfter n →
      (samples.foldl (ingest fft toBin ofSample) st).pos =
          posAfter (n + samples.length) ∧
      (samples.foldl (ingest fft toBin ofSample) st).sent.length =
          framesAfter (n + samples.length) := by
  induction samples with
  | nil =>
      intro st n hp hs
      simpa using ⟨hp, hs⟩
  | cons x rest ih =>
      intro st n hp hs
      have h1 := ingest_pos_sent fft toBin ofSample st x n hp hs
      have h2 := ih (ingest fft toBin ofSample st x) (n + 1) h1.1 h1.2
      have harg : n + 1 + rest.length = n + (x :: rest).length := by
        simp
        omega
      rw [harg] at h2
      simpa using h2

theorem run_pos {α β : Type} (fft : List α → List α) (toBin : α → β)
    (ofSample : ℤ → α) (zero : α) (samples : List ℤ) :
    (runAnalyzer fft toBin ofSample zero samples).pos =
      posAfter samples.length := by
  have h := foldl_ingest_pos_sent fft toBin ofSample samples
    (initState zero) 0 rfl rfl
  simpa [runAnalyzer] using h.1

theorem run_sent_length {α β : Type} (fft : List α → List α) (toBin : α → β)
    (ofSample : ℤ → α) (zero : α) (samples : List ℤ) :
    (runAnalyzer fft toBin ofSample zero samples).sent.length =
      framesAfter samples.length := by
  have h := foldl_ingest_pos_sent fft toBin ofSample samples
    (initState zero) 0 rfl rfl
  simpa [runAnalyzer] using h.2

/-- Bin normalization from the callback's map closure:
`let x = 1.0 + ((v.norm() as f64) / FFT_SIZE as f64).log10();
 if x < 0.0 { 0.0 } else { x / 5.0 }`. -/
noncomputable def binValue (v : ℂ) : ℝ :=
  let x : ℝ := 1 + Real.logb 10 (Complex.abs v / (FFT_SIZE : ℝ))
  if x < 0 then 0 else x / 5

/-- Conversion of one raw sample to the FFT input,
`Complex::new(*sample as f32, 0.0 as f32)`. -/
noncomputable def ofSampleC (z : ℤ) : ℂ := ⟨(z : ℝ), 0⟩

/-- The analyzer as written in pipeline.rs: complex scratch buffer, real
frame bins obtained through `binValue`, initial buffer all zeros. The
library FFT stays a parameter, used as a black box. -/
noncomputable def runReal (fft : List ℂ → List ℂ) (samples : List ℤ) :
    AnalyzerState ℂ ℝ :=
  runAnalyzer fft binValue ofSampleC 0 samples

theorem binValue_nonneg (v : ℂ) : 0 ≤ binValue v := by
  unfold binValue
  simp only []
  split
  · exact le_refl 0
  · next h => exact div_nonneg (not_lt.mp h) (by norm_num)

/-- Every frame in `sent` is the mapped second half of the FFT output of
some full window, and the scratch buffer keeps its length. -/
def SentFrom {α β : Type} (fft : List α → List α) (toBin : α → β)
    (st : AnalyzerState α β) : Prop :=
  st.fftBuffer.length = FFT_SIZE ∧
  ∀ f ∈ st.sent, ∃ buf : List α, buf.length = FFT_SIZE ∧
    f = mkFrame toBin (fft buf)

theorem ingest_sentFrom {α β : Type} (fft : List α → List α) (toBin : α → β)
    (ofSample : ℤ → α) (hfft : ∀ l : List α, (fft l).length = l.length)
    (st : AnalyzerState α β) (x : ℤ) (h : SentFrom fft toBin st) :
    SentFrom fft toBin (ingest fft toBin ofSample st x) := by
  obtain ⟨hlen, hfr⟩ := h
  unfold SentFrom ingest
  split
  · refine ⟨by simpa using (hfft st.fftBuffer).trans hlen, ?_⟩
    intro f hf
    simp only [List.mem_append, List.mem_singleton] at hf
    rcases hf with hf | hf
    · exact hfr f hf
    · exact ⟨st.fftBuffer, hlen, hf⟩
  · exact ⟨by simpa using hlen, hfr⟩

theorem run_sentFrom {α β : Type} (fft : List α → List α) (toBin : α → β)
    (ofSample : ℤ → α) (zero : α)
    (hfft : ∀ l : List α, (fft l).length = l.length) (samples : List ℤ) :
    SentFrom fft toBin (runAnalyzer fft toBin ofSample zero samples) := by
  unfold runAnalyzer
  have hinit : SentFrom fft toBin (initState (β := β) zero) := by
    constructor
    · simp [initState]
    · intro f hf
      simp [initState] at hf
  generalize initState zero = st at hinit ⊢
  induction samples generalizing st with
  | nil => exact hinit
  | cons y rest ih =>
      exact ih _ (ingest_sentFrom fft toBin ofSample hfft st y hinit)

/-- C1 (amended): feeding a sample sequence of length n to the analyzer
sends exactly ⌊(n − 1) / W⌋ SpectralFrames (0 for n = 0) with W = 800:
the callback checks `pos >= FFT_SIZE` before appending, so a window's
frame goes out only when the first sample after that window arrives,
and never from a partially filled window. -/
theorem frames_emitted_count {α β : Type} (fft : List α → List α)
    (toBin : α → β) (ofSample : ℤ → α) (zero : α) (samples : List ℤ) :
    (runAnalyzer fft toBin ofSample zero samples).sent.length =
      (samples.length - 1) / FFT_SIZE :=
  run_sent_length fft toBin ofSample zero samples

/-- C1 counterexample: after exactly W = 800 samples the window has just
filled, yet zero frames have been sent, while the claim's formula
⌊n / W⌋ predicts one. -/
theorem frames_emitted_count_cex :
    (runReal id (List.replicate 800 0)).sent.length = 0 ∧
    (List.replicate 800 (0 : ℤ)).length / FFT_SIZE = 1 := by
  constructor
  · unfold runReal
    rw [run_sent_length]
    norm_num [framesAfter, FFT_SIZE]
  · norm_num [FFT_SIZE]

/-- C4 (amended): after every completed ingest of a nonempty sample
sequence the cursor satisfies 1 ≤ pos ≤ W; pos = W is observable between
ingest calls (the window just filled), and the reset to 0 only happens
at the start of the next ingest. -/
theorem cursor_bounds {α β : Type} (fft : List α → List α) (toBin : α → β)
    (ofSample : ℤ → α) (zero : α) (samples : List ℤ) (hne : samples ≠ []) :
    1 ≤ (runAnalyzer fft toBin ofSample zero samples).pos ∧
    (runAnalyzer fft toBin ofSample zero samples).pos ≤ FFT_SIZE := by
  rw [run_pos]
  have hn : samples.length ≠ 0 := by simpa using hne
  unfold posAfter FFT_SIZE
  rw [if_neg hn]
  omega

theorem cursor_bounds_witness :
    1 ≤ (runReal id [0]).pos ∧ (runReal id [0]).pos ≤ FFT_SIZE :=
  cursor_bounds id binValue ofSampleC 0 [0] (List.cons_ne_nil 0 [])

/-- C4 counterexample: after ingesting exactly W = 800 samples the
cursor equals W, outside the claimed interval [0, W). -/
theorem cursor_bounds_cex :
    (runReal id (List.replicate 800 0)).pos = FFT_SIZE := by
  unfold runReal
  rw [run_pos]
  simp only [List.length_replicate]
  decide

/-- C2: every SpectralFrame sent on the channel has exactly W/2 = 400
entries, taken from the second half (indices [W/2, W)) of the W FFT
output bins of a full window in increasing index order, and every entry
is nonnegative. -/
theorem spectral_frame_bins (fft : List ℂ → List ℂ)
    (hfft : ∀ l : List ℂ, (fft l).length = l.length) (samples : List ℤ)
    (frame : List ℝ) (hmem : frame ∈ (runReal fft samples).sent) :
    frame.length = FFT_SIZE / 2 ∧
    (∃ buf : List ℂ, buf.length = FFT_SIZE ∧
      frame = ((fft buf).drop (FFT_SIZE / 2)).map binValue) ∧
    ∀ x ∈ frame, 0 ≤ x := by
  unfold runReal at hmem
  obtain ⟨buf, hb, hf⟩ :=
    (run_sentFrom fft binValue ofSampleC 0 hfft samples).2 frame hmem
  refine ⟨?_, ⟨buf, hb, hf⟩, ?_⟩
  · subst hf
    simp only [mkFrame, List.length_map, List.length_drop, hfft, hb]
    norm_num [FFT_SIZE]
  · subst hf
    intro x hx
    simp only [mkFrame, List.mem_map] at hx
    obtain ⟨v, _, rfl⟩ := hx
    exact binValue_nonneg v

theorem spectral_frame_bins_witness :
    (runReal id (List.replicate 801 0)).sent.headI.length = FFT_SIZE / 2 := by
  have hlen : (runReal id (List.replicate 801 0)).sent.length = 1 := by
    unfold runReal
    rw [run_sent_length]
    norm_num [framesAfter, FFT_SIZE]
  obtain ⟨f, hf⟩ := List.length_eq_one.mp hlen
  have hmem : (runReal id (List.replicate 801 0)).sent.headI ∈
      (runReal id (List.replicate 801 0)).sent := by
    rw [hf]
    simp
  exact (spectral_frame_bins id (fun _ => rfl) (List.replicate 801 0)
    _ hmem).1

/-- C3: each bin value of an emitted frame is computed from the complex
FFT output v as x = 1 + log10(|v| / W); a negative x yields bin value 0,
otherwise the bin value is x / 5. -/
theorem bin_normalization (v : ℂ) :
    (1 + Real.logb 10 (Complex.abs v / (FFT_SIZE : ℝ)) < 0 →
      binValue v = 0) ∧
    (0 ≤ 1 + Real.logb 10 (Complex.abs v / (FFT_SIZE : ℝ)) →
      binValue v = (1 + Real.logb 10 (Complex.abs v / (FFT_SIZE : ℝ))) / 5) := by
  constructor
  · intro h
    simp only [binValue]
    rw [if_pos h]
  · intro h
    simp only [binValue]
    rw [if_neg (not_lt.mpr h)]

theorem bin_normalization_witness :
    binValue 0 = (1 + Real.logb 10 (Complex.abs 0 / (FFT_SIZE : ℝ))) / 5 := by
  have h : (0 : ℝ) ≤ 1 + Real.logb 10 (Complex.abs 0 / (FFT_SIZE : ℝ)) := by
    simp
  exact (bin_normalization 0).2 h

/-- One callback loop iteration with its two panic sites made explicit:
`sender.send(..).unwrap()` panics (returns `none`) when the channel
consumer is gone (`channelOpen = false`), and `fft_buffer[pos] = ...`
panics when `pos` is out of bounds of the buffer. -/
def ingestChecked {α β : Type} (fft : List α → List α) (toBin : α → β)
    (ofSample : ℤ → α) (channelOpen : Bool) (st : AnalyzerState α β)
    (sample : ℤ) : Option (AnalyzerState α β) :=
  let st1opt : Option (AnalyzerState α β) :=
    if FFT_SIZE ≤ st.pos then
      if channelOpen then
        some { fftBuffer := fft st.fftBuffer, pos := 0,
               sent := st.sent ++ [mkFrame toBin (fft st.fftBuffer)] }
      else none
    else some st
  st1opt.bind fun st1 =>
    if st1.pos < st1.fftBuffer.length then
      some { fftBuffer := st1.fftBuffer.set st1.pos (ofSample sample),
             pos := st1.pos + 1, sent := st1.sent }
    else none

/-- Feed a whole sample sequence through the panic-aware ingest;
the result is `none` exactly when some iteration would panic. -/
def runChecked {α β : Type} (fft : List α → List α) (toBin : α → β)
    (ofSample : ℤ → α) (zero : α) (channelOpen : Bool)
    (samples : List ℤ) : Option (AnalyzerState α β) :=
  samples.foldl
    (fun acc x => acc.bind fun st =>
      ingestChecked fft toBin ofSample channelOpen st x)
    (some (initState zero))

theorem ingestChecked_some {α β : Type} (fft : List α → List α)
    (toBin : α → β) (ofSample : ℤ → α)
    (hfft : ∀ l : List α, (fft l).length = l.length)
    (st : AnalyzerState α β) (x : ℤ)
    (hlen : st.fftBuffer.length = FFT_SIZE) :
    ∃ st', ingestChecked fft toBin ofSample true st x = some st' ∧
      st'.fftBuffer.length = FFT_SIZE := by
  unfold ingestChecked
  by_cases h : FFT_SIZE ≤ st.pos
  · have hl : (fft st.fftBuffer).length = FFT_SIZE :=
      (hfft st.fftBuffer).trans hlen
    have h0 : 0 < (fft st.fftBuffer).length := by
      rw [hl]
      norm_num [FFT_SIZE]
    refine ⟨{ fftBuffer := (fft st.fftBuffer).set 0 (ofSample x), pos := 1,
              sent := st.sent ++ [mkFrame toBin (fft st.fftBuffer)] },
            ?_, ?_⟩
    · simp [h, h0]
    · simp [hl]
  · have hp : st.pos < st.fftBuffer.length := by
      rw [hlen]
      unfold FFT_SIZE at h ⊢
      omega
    refine ⟨{ fftBuffer := st.fftBuffer.set st.pos (ofSample x),
              pos := st.pos + 1, sent := st.sent }, ?_, ?_⟩
    · simp [h, hp]
    · simp [hlen]

theorem runChecked_isSome_aux {α β : Type} (fft : List α → List α)
    (toBin : α → β) (ofSample : ℤ → α)
    (hfft : ∀ l : List α, (fft l).length = l.length) (samples : List ℤ) :
    ∀ st : AnalyzerState α β, st.fftBuffer.length = FFT_SIZE →
      ∃ st', samples.foldl
          (fun acc x => acc.bind fun s =>
            ingestChecked fft toBin ofSample true s x) (some st) = some st' ∧
        st'.fftBuffer.length = FFT_SIZE := by
  induction samples with
  | nil =>
      intro st hlen
      exact ⟨st, rfl, hlen⟩
  | cons x rest ih =>
      intro st hlen
      obtain ⟨st1, h1, hlen1⟩ :=
        ingestChecked_some fft toBin ofSample hfft st x hlen
      obtain ⟨st', h2, hlen'⟩ := ih st1 hlen1
      refine ⟨st', ?_, hlen'⟩
      simpa [h1] using h2

/-- C9: with the channel consumer present, the ingest loop never panics,
whatever integer sample values arrive, in particular at the i16
extremes: neither the buffer write nor the channel send can fail. -/
theorem ingest_no_panic {α β : Type} (fft : List α → List α)
    (toBin : α → β) (ofSample : ℤ → α) (zero : α)
    (hfft : ∀ l : List α, (fft l).length = l.length) (samples : List ℤ) :
    (runChecked fft toBin ofSample zero true samples).isSome = true := by
  obtain ⟨st', h, _⟩ := runChecked_isSome_aux fft toBin ofSample hfft samples
    (initState zero) (by simp [initState])
  unfold runChecked
  rw [h]
  rfl

theorem ingest_no_panic_witness :
    (runChecked (id : List Unit → List Unit) (fun _ => ())
      (fun _ => ()) () true [(-32768 : ℤ), 32767]).isSome = true :=
  ingest_no_panic id (fun _ => ()) (fun _ => ()) ()
    (fun _ => rfl) [(-32768 : ℤ), 32767]

/-- External decode-engine surface used by run_visualisation: pipeline
construction (`Pipeline::new`, `none` models a construction error) and
the three fallible lifecycle calls, `false` modelling an `Err` result. -/
structure Engine (H : Type) where
  construct : String → Option H
  play : H → Bool
  pause : H → Bool
  stop : H → Bool

/-- Observable engine calls issued by one key handler, in order. -/
inductive Action (H : Type) where
  | constructed (path : String)
  | played (h : H)
  | paused (h : H)
  | stopped (h : H)
  deriving DecidableEq

/-- Fallback source hard-coded in the S key handler of main.rs. -/
def defaultSourcePath : String := "resources/youve_got_speed.mp3"

/-- Playback keys handled by run_visualisation (Q excluded: it only
exits the loop; K/W only touch the visualisation mode). -/
inductive Key where
  | A
  | S
  | D

/-- The A/S/D arms of the keyboard match in run_visualisation: the
state is the optional pipeline handle, the result is the new handle
together with the engine calls performed. Error printing is the only
other effect and is not modelled. -/
def handleKey {H : Type} (e : Engine H) (k : Key) (pipeline : Option H) :
    Option H × List (Action H) :=
  match k, pipeline with
  | Key.A, some p => (none, [Action.stopped p])
  | Key.A, none => (none, [])
  | Key.S, none =>
      match e.construct defaultSourcePath with
      | none => (none, [Action.constructed defaultSourcePath])
      | some p =>
          if e.play p then
            (some p, [Action.constructed defaultSourcePath, Action.played p])
          else
            (none, [Action.constructed defaultSourcePath, Action.played p])
  | Key.S, some p =>
      if e.play p then (some p, [Action.played p])
      else (none, [Action.played p])
  | Key.D, some p =>
      if e.pause p then (some p, [Action.paused p])
      else (none, [Action.paused p])
  | Key.D, none => (none, [])

/-- C5: with a pipeline handle present, the S command plays that same
instance and performs no construction; with no handle present it
constructs a pipeline from the fixed built-in fallback path (not the
--file argument, which handleKey never receives) and, on success,
plays it and retains the handle. -/
theorem play_command_behavior (H : Type) (e : Engine H) (p h : H)
    (hp : e.play p = true) (hc : e.construct defaultSourcePath = some h)
    (hh : e.play h = true) :
    handleKey e Key.S (some p) = (some p, [Action.played p]) ∧
    handleKey e Key.S none =
      (some h, [Action.constructed defaultSourcePath, Action.played h]) ∧
    defaultSourcePath = "resources/youve_got_speed.mp3" := by
  refine ⟨?_, ?_, rfl⟩
  · simp [handleKey, hp]
  · simp [handleKey, hc, hh]

theorem play_command_behavior_witness :
    handleKey
        ({ construct := fun _ => some 5, play := fun _ => true,
           pause := fun _ => true, stop := fun _ => true } : Engine Nat)
        Key.S (some 7) = (some 7, [Action.played 7]) ∧
    handleKey
        ({ construct := fun _ => some 5, play := fun _ => true,
           pause := fun _ => true, stop := fun _ => true } : Engine Nat)
        Key.S none =
      (some 5, [Action.constructed defaultSourcePath, Action.played 5]) ∧
    defaultSourcePath = "resources/youve_got_speed.mp3" :=
  play_command_behavior Nat
    { construct := fun _ => some 5, play := fun _ => true,
      pause := fun _ => true, stop := fun _ => true }
    7 5 rfl rfl rfl

/-- C6: pause (D) or stop (A) with no pipeline handle is a no-op: the
handler returns (it is total, so it cannot panic), the handle stays
absent, and no engine call is made, so nothing is constructed or
dropped. -/
theorem invalid_command_noop (H : Type) (e : Engine H) :
    handleKey e Key.A none = (none, []) ∧
    handleKey e Key.D none = (none, []) :=
  ⟨rfl, rfl⟩

/-- C7: whenever an engine-level play or pause call fails, the handler
drops the pipeline handle; the A command drops the handle
unconditionally, so in particular even when the engine stop call
fails (e.stop is unconstrained here). -/
theorem engine_error_drops_handle (H : Type) (e : Engine H) (p : H)
    (hplay : e.play p = false) (hpause : e.pause p = false) :
    handleKey e Key.S (some p) = (none, [Action.played p]) ∧
    handleKey e Key.D (some p) = (none, [Action.paused p]) ∧
    handleKey e Key.A (some p) = (none, [Action.stopped p]) := by
  refine ⟨?_, ?_, rfl⟩
  · simp [handleKey, hplay]
  · simp [handleKey, hpause]

theorem engine_error_drops_handle_witness :
    handleKey
        ({ construct := fun _ => none, play := fun _ => false,
           pause := fun _ => false, stop := fun _ => false } : Engine Nat)
        Key.S (some 3) = (none, [Action.played 3]) ∧
    handleKey
        ({ construct := fun _ => none, play := fun _ => false,
           pause := fun _ => false, stop := fun _ => false } : Engine Nat)
        Key.D (some 3) = (none, [Action.paused 3]) ∧
    handleKey
        ({ construct := fun _ => none, play := fun _ => false,
           pause := fun _ => false, stop := fun _ => false } : Engine Nat)
        Key.A (some 3) = (none, [Action.stopped 3]) :=
  engine_error_drops_handle Nat
    { construct := fun _ => none, play := fun _ => false,
      pause := fun _ => false, stop := fun _ => false }
    3 rfl rfl

/-- Rust's `Receiver::try_recv` on the channel content viewed as a FIFO
queue, oldest frame first: it returns immediately in every channel
state, with the oldest frame when one exists. -/
def tryRecv {F : Type} (q : List F) : Option F × List F :=
  match q with
  | [] => (none, [])
  | f :: rest => (some f, rest)

/-- The per-tick channel interaction of the render loop
(`if let Ok(fft_data) = mpsc_receiver.try_recv() { wf.set_fft_data(..) }`):
one non-blocking receive, updating the waterfall input on success. -/
def renderTick {F : Type} (q : List F) (wfData : Option F) :
    List F × Option F :=
  match tryRecv q with
  | (some f, q') => (q', some f)
  | (none, q') => (q', wfData)

/-- C8: each render tick removes at most one frame from the channel
(the queue always shrinks to its tail, so by at most one element), and
the single receive is non-blocking in every channel state: on an empty
queue the tick returns at once leaving the waterfall input unchanged,
on a nonempty queue it takes exactly the oldest frame. -/
theorem render_tick_nonblocking (F : Type) (q : List F) (w : Option F)
    (f : F) (rest : List F) :
    (renderTick q w).1 = q.tail ∧
    q.length ≤ (renderTick q w).1.length + 1 ∧
    renderTick ([] : List F) w = ([], w) ∧
    renderTick (f :: rest) w = (rest, some f) := by
  refine ⟨?_, ?_, rfl, rfl⟩ <;> cases q <;> simp [renderTick, tryRecv]

/-- Visualisation mode selector from main.rs. -/
inductive Visualisation where
  | KALEIDOSCOPE
  | WATERFALL
  deriving DecidableEq

/-- The `impl Default for Visualisation`. -/
def Visualisation.defaultMode : Visualisation := Visualisation.KALEIDOSCOPE

/-- Program state assembled in main. -/
structure ProgState where
  file_name : Option String
  full_screen : Bool
  visualisation : Visualisation

/-- The derived `Default` of State: every field takes its default. -/
def ProgState.defaultState : ProgState :=
  { file_name := none, full_screen := false,
    visualisation := Visualisation.defaultMode }

/-- State produced by main before run_visualisation: it starts from the
default and overwrites only full_screen and file_name from the
command-line matches. -/
def mainState (file : Option String) (fullscreen : Bool) : ProgState :=
  { ProgState.defaultState with
    full_screen := fullscreen,
    file_name := file }

/-- Initialisation of the render loop's mode,
`let mut current_visualisation = state.visualisation.clone()`. -/
def initialVisualisation (s : ProgState) : Visualisation :=
  s.visualisation

/-- C10: at startup, before any key command, the current visualisation
mode is Kaleidoscope for every command line: the enum default is
Kaleidoscope and the render loop copies it from the default-built
state. -/
theorem startup_mode_kaleidoscope (file : Option String) (fs : Bool) :
    initialVisualisation (mainState file fs) =
      Visualisation.KALEIDOSCOPE := rfl

end Rvis
